import Mathlib

/-!
Shallow embedding of the ReadyQueue implementation (src/future/ready_queue.rs)
and of the spawn extension helpers (futures-util/src/task/spawn.rs).

Modelling conventions:
* usize is modelled as Nat with explicit wrap-around modulo 2 ^ 64 where the
  source performs wrapping atomic arithmetic (fetch_add / fetch_sub).
* Raw Node pointers are modelled as Nat identifiers; the null pointer is
  Option.none, a non-null pointer is Option.some id.  The heap of live Nodes is
  a function Nat -> Option (Node ..); freeing a Node removes it from the heap.
* The single-consumer operations (push, dequeue, poll, release_node, unlink)
  are sequential in the source and are modelled as pure state transformers.
  Producer-side operations (notify / the enqueue protocol) are atomic
  read-modify-write steps in the source; a concurrent execution of such steps
  is equivalent to some sequential interleaving of them, which is how the
  concurrency claims are stated (explicit sequences of atomic steps, and for
  the wake queue a two-phase enqueue exposing the unpublished-link window).
* The task type parameter T : Future is modelled by a deterministic script of
  poll outcomes (the task contract: each poll returns not-ready / ready /
  error); the consumer-side code never inspects anything else about the task.
* The poll loop of the Stream implementation is modelled with explicit fuel;
  every terminating execution of the source loop corresponds to a sufficiently
  large fuel value.
-/

/-- usize::MAX for the modelled 64-bit platform. -/
def usizeMax : Nat := 2 ^ 64 - 1

/-- Modulus for wrapping usize arithmetic. -/
def usizeMod : Nat := 2 ^ 64

/-- Max number of references to a single node (usize::MAX >> 1), line 61. -/
def MAX_REFS : Nat := usizeMax >>> 1

/-- Flag tracking that a node has been queued (usize::MAX - (usize::MAX >> 1)),
line 64: the top bit of the state word. -/
def QUEUED : Nat := usizeMax - (usizeMax >>> 1)

/-- Bitwise complement of QUEUED inside a 64-bit word (the mask written
!QUEUED in the source). -/
def NOT_QUEUED : Nat := usizeMax ^^^ QUEUED

/-- The free function release (lines 448-459) acting on the state word of a
Node: fetch_sub(1, AcqRel) and the decision whether the Node is freed
(old_state & !QUEUED == 1).  Returns (new state word, freed flag). -/
def releaseWord (s : Nat) : Nat × Bool :=
  let old := s
  let s2 := (s + (usizeMod - 1)) % usizeMod
  (s2, decide (old &&& NOT_QUEUED = 1))

/-- Inner::ref_inc (lines 360-382) acting on the state word:
fetch_add(1, Relaxed), then panic when old_size > MAX_REFS.  none models the
panic; some gives the new state word. -/
def refIncWord (s : Nat) : Option Nat :=
  let old := s
  let s2 := (s + 1) % usizeMod
  if MAX_REFS < old then none else some s2

/-- Inner::clone_raw (lines 394-428) acting on the Inner reference count:
fetch_add(1, Relaxed), then panic when old_size > MAX_REFS.  none models the
panic; some gives the new count. -/
def cloneRawCount (rc : Nat) : Option Nat :=
  let old := rc
  let rc2 := (rc + 1) % usizeMod
  if MAX_REFS < old then none else some rc2

/-- Inner::drop_raw (lines 430-436) acting on the Inner reference count:
fetch_sub(1, AcqRel); the Bool tells whether the Inner is destroyed
(the count was 1). -/
def dropRawCount (rc : Nat) : Nat × Bool :=
  ((rc + (usizeMod - 1)) % usizeMod, decide (rc = 1))

/-- Inner::notify (lines 342-358) acting on the state word of a Node:
fetch_or(QUEUED, AcqRel); the Bool tells whether the previous value had the
QUEUED bit clear, i.e. whether this call enqueues the Node and notifies the
parent. -/
def notifyWord (s : Nat) : Nat × Bool :=
  let prev := s
  (s ||| QUEUED, decide (prev &&& QUEUED = 0))

/-- A sequence of k notify calls on one Node state word, applied in the order
of some interleaving of concurrent callers (each call is a single atomic
read-modify-write, so every concurrent execution linearizes to such a
sequence).  Returns the final state word and how many of the calls enqueued
the Node. -/
def notifyN : Nat → Nat → Nat × Nat
  | 0, s => (s, 0)
  | k + 1, s =>
    let r := notifyWord s
    let rest := notifyN k r.1
    (rest.1, (if r.2 then 1 else 0) + rest.2)

/-- Outcome of one poll of a task, the contract of the Future parameter T:
Ok(Async::NotReady), Ok(Async::Ready(v)) or Err(e). -/
inductive PollRes (α ε : Type) where
  | notReady : PollRes α ε
  | ready (v : α) : PollRes α ε
  | err (e : ε) : PollRes α ε
deriving DecidableEq

/-- A task (the Future parameter T): a deterministic script of poll outcomes.
Each poll consumes the head of the script; an exhausted script keeps
returning NotReady. -/
structure MTask (α ε : Type) where
  steps : List (PollRes α ε)
deriving DecidableEq

/-- Polling a task consumes one scripted outcome. -/
def MTask.poll (f : MTask α ε) : PollRes α ε × MTask α ε :=
  match f.steps with
  | [] => (PollRes.notReady, f)
  | r :: rest => (r, MTask.mk rest)

/-- Node (lines 37-52): the per-task record.  The UnsafeCell / AtomicPtr /
AtomicUsize fields become plain fields of the state-passing model. -/
structure Node (α ε : Type) where
  future : Option (MTask α ε)
  next_all : Option Nat
  prev_all : Option Nat
  next_readiness : Option Nat
  state : Nat
deriving DecidableEq

/-- Dequeue (lines 54-58): result of the MPSC pop. -/
inductive DequeueR where
  | data (n : Nat) : DequeueR
  | empty : DequeueR
  | inconsistent : DequeueR
deriving DecidableEq

/-- Combined state of a ReadyQueue facade (lines 16-21) and its Inner block
(lines 23-35).  The facade and the Inner are allocated together by new and the
consumer-side code always accesses both, so the model carries them in one
record.  nodes is the heap of live Nodes keyed by address; stub is the address
of the sentinel Node owned by Inner; parentWakes counts parent.notify() calls
on the AtomicTask parker; polls records which Node had its task polled. -/
structure RQ (α ε : Type) where
  nodes : Nat → Option (Node α ε)
  nextId : Nat
  len : Nat
  head_all : Option Nat
  tail_readiness : Nat
  head_readiness : Nat
  stub : Nat
  innerRefs : Nat
  parentWakes : Nat
  polls : List Nat

/-- Helper: apply a field update to the Node stored at address n (the source
mutates the pointed-to Node in place). -/
def updNode (q : RQ α ε) (n : Nat) (g : Node α ε → Node α ε) : RQ α ε :=
  { q with nodes := fun k => if k = n then (q.nodes k).map g else q.nodes k }

/-- Helper: read the next_readiness link of the Node at address i
(a null / dangling address reads as null). -/
def nextRd (q : RQ α ε) (i : Nat) : Option Nat :=
  match q.nodes i with
  | some nd => nd.next_readiness
  | none => none

/-- ReadyQueue::new (lines 70-96): stub Node at address 0 with state
QUEUED | 1, head_readiness and tail_readiness pointing at the stub, empty
all-list, len 0, Inner refcount 1. -/
def RQnew (α ε : Type) : RQ α ε :=
  { nodes := fun k =>
      if k = 0 then
        some { future := none, next_all := none, prev_all := none,
               next_readiness := none, state := QUEUED ||| 1 }
      else none,
    nextId := 1, len := 0, head_all := none,
    tail_readiness := 0, head_readiness := 0, stub := 0,
    innerRefs := 1, parentWakes := 0, polls := [] }

/-- Inner::enqueue (lines 322-331): store null into the Node wake link, swap
the queue head, then publish the forward link of the previous head. -/
def enqueueRQ (q : RQ α ε) (n : Nat) : RQ α ε :=
  let q1 := updNode q n (fun x => { x with next_readiness := none })
  let prev := q1.head_readiness
  let q2 := { q1 with head_readiness := n }
  updNode q2 prev (fun x => { x with next_readiness := some n })

/-- Shared tail of ReadyQueue::dequeue (lines 160-180): the part after the
initial stub check, with tail and its loaded forward link as arguments. -/
def dequeueContRQ (q : RQ α ε) (tail : Nat) (next : Option Nat) :
    DequeueR × RQ α ε :=
  match next with
  | some nx => (DequeueR.data tail, { q with tail_readiness := nx })
  | none =>
    if q.head_readiness ≠ tail then (DequeueR.inconsistent, q)
    else
      let q2 := enqueueRQ q q.stub
      match nextRd q2 tail with
      | some nx => (DequeueR.data tail, { q2 with tail_readiness := nx })
      | none => (DequeueR.inconsistent, q2)

/-- ReadyQueue::dequeue (lines 143-182): the 1024cores intrusive MPSC pop,
with the stub-skipping prologue. -/
def dequeueRQ (q : RQ α ε) : DequeueR × RQ α ε :=
  let tail := q.tail_readiness
  let next := nextRd q tail
  if tail = q.stub then
    match next with
    | none => (DequeueR.empty, q)
    | some nx =>
      let q1 := { q with tail_readiness := nx }
      dequeueContRQ q1 nx (nextRd q1 nx)
  else
    dequeueContRQ q tail next

/-- ReadyQueue::push (lines 116-139): allocate a Node with state QUEUED | 1
holding the task, splice it at the head of the all-list, enqueue it into the
wake queue, increment len. -/
def pushRQ (q : RQ α ε) (t : MTask α ε) : RQ α ε :=
  let nid := q.nextId
  let newNode : Node α ε :=
    { future := some t, next_all := q.head_all, prev_all := none,
      next_readiness := none, state := QUEUED ||| 1 }
  let q1 : RQ α ε :=
    { q with nodes := fun k => if k = nid then some newNode else q.nodes k,
             nextId := nid + 1 }
  let q2 :=
    match q1.head_all with
    | some h => updNode q1 h (fun x => { x with prev_all := some nid })
    | none => q1
  let q3 := { q2 with head_all := some nid }
  let q4 := enqueueRQ q3 nid
  { q4 with len := q4.len + 1 }

/-- ReadyQueue::unlink (lines 204-216): detach a Node from the doubly linked
all-list, updating head_all when the Node was the head. -/
def unlinkRQ (q : RQ α ε) (n : Nat) : RQ α ε :=
  match q.nodes n with
  | none => q
  | some nd =>
    let q1 :=
      match nd.next_all with
      | some nx => updNode q nx (fun x => { x with prev_all := nd.prev_all })
      | none => q
    match nd.prev_all with
    | some p => updNode q1 p (fun x => { x with next_all := nd.next_all })
    | none => { q1 with head_all := nd.next_all }

/-- The free function release (lines 448-459) on the heap: decrement the
state word; when the old refcount portion was exactly 1 the Box is reclaimed,
i.e. the Node disappears from the heap. -/
def releaseRQ (q : RQ α ε) (n : Nat) : RQ α ε :=
  match q.nodes n with
  | none => q
  | some nd =>
    let r := releaseWord nd.state
    if r.2 then { q with nodes := fun k => if k = n then none else q.nodes k }
    else updNode q n (fun x => { x with state := r.1 })

/-- ReadyQueue::release_node (lines 184-202): fetch_or(QUEUED), drop the task
slot, unlink from the all-list, and release the owning reference when the
QUEUED bit was previously clear (the Node was not concurrently re-enqueued). -/
def releaseNodeRQ (q : RQ α ε) (n : Nat) : RQ α ε :=
  match q.nodes n with
  | none => q
  | some nd =>
    let prev := nd.state
    let q1 := updNode q n
      (fun x => { x with state := x.state ||| QUEUED, future := none })
    let q2 := unlinkRQ q1 n
    if prev &&& QUEUED = 0 then releaseRQ q2 n else q2

/-- Inner::notify (lines 342-358) on the heap: fetch_or(QUEUED) on the Node
state; when the bit was previously clear, enqueue the Node and wake the
parent parker (parentWakes is incremented). -/
def notifyRQ (q : RQ α ε) (n : Nat) : RQ α ε :=
  match q.nodes n with
  | none => q
  | some nd =>
    let prev := nd.state
    let q1 := updNode q n (fun x => { x with state := x.state ||| QUEUED })
    if prev &&& QUEUED = 0 then
      let q2 := enqueueRQ q1 n
      { q2 with parentWakes := q2.parentWakes + 1 }
    else q1

/-- Async, the readiness half of the source return type Poll<T, E> =
Result<Async<T>, E>. -/
inductive AsyncR (α : Type) where
  | ready (v : α) : AsyncR α
  | notReady : AsyncR α
deriving DecidableEq

/-- Shared completion path of the poll loop (lines 276-285): after the task at
Node n reported Ready or Err, the length is decremented, release_node runs,
and the NotifyHandle created for this poll is finally dropped (drop_raw; the
facade itself still holds an Inner reference, so only the decrement is
observable).  q4 is the loop state right after the task was polled. -/
def completeFrom (q4 : RQ α ε) (n : Nat) : RQ α ε :=
  let q5 := releaseNodeRQ { q4 with len := q4.len - 1 } n
  { q5 with innerRefs := (q5.innerRefs + (usizeMod - 1)) % usizeMod }

/-- State right after the task of the dequeued Node n was polled, leaving the
advanced task value f2 in the slot: QUEUED cleared before the poll, the
NotifyHandle cloned (clone_raw), the poll recorded.  q1 is the state right
after the dequeue. -/
def afterTaskPoll (q1 : RQ α ε) (n : Nat) (f2 : MTask α ε) : RQ α ε :=
  let q2 := updNode q1 n (fun x => { x with state := x.state &&& NOT_QUEUED })
  let q3 := { q2 with innerRefs := (q2.innerRefs + 1) % usizeMod,
                      polls := q2.polls ++ [n] }
  updNode q3 n (fun x => { x with future := some f2 })

/-- Result of one iteration of the poll loop body: continue looping, return
from poll with a Poll<Option<Item>, Error> value plus the self-wake flag of
the Inconsistent arm, or abort (dereference of a freed Node / the clone_raw
refcount panic). -/
inductive StepRes (α ε : Type) where
  | cont (q : RQ α ε) : StepRes α ε
  | done (res : Except ε (AsyncR (Option α))) (selfWake : Bool)
      (q : RQ α ε) : StepRes α ε
  | stuck : StepRes α ε

/-- One iteration of the loop body of Stream::poll for ReadyQueue
(lines 233-295). -/
def pollStep (q : RQ α ε) : StepRes α ε :=
  match dequeueRQ q with
  | (DequeueR.empty, q1) =>
    if q1.len = 0 then
      StepRes.done (Except.ok (AsyncR.ready none)) false q1
    else
      StepRes.done (Except.ok AsyncR.notReady) false q1
  | (DequeueR.inconsistent, q1) =>
    StepRes.done (Except.ok AsyncR.notReady) true q1
  | (DequeueR.data n, q1) =>
    match q1.nodes n with
    | none => StepRes.stuck
    | some nd =>
      match nd.future with
      | some f =>
        match cloneRawCount q1.innerRefs with
        | none => StepRes.stuck
        | some _ =>
          let pr := MTask.poll f
          let q4 := afterTaskPoll q1 n pr.2
          match pr.1 with
          | PollRes.notReady =>
            StepRes.cont
              { q4 with innerRefs := (q4.innerRefs + (usizeMod - 1)) % usizeMod }
          | PollRes.ready v =>
            StepRes.done (Except.ok (AsyncR.ready (some v))) false
              (completeFrom q4 n)
          | PollRes.err e =>
            StepRes.done (Except.error e) false (completeFrom q4 n)
      | none => StepRes.cont (releaseRQ q1 n)

/-- Stream::poll for ReadyQueue (lines 229-296) with explicit fuel for the
loop.  parent.park() only registers the consumer with the parker and has no
other observable effect in the model.  none means the fuel ran out or the
execution aborted. -/
def pollLoop : Nat → RQ α ε → Option (Except ε (AsyncR (Option α)) × Bool × RQ α ε)
  | 0, _ => none
  | fuel + 1, q =>
    match pollStep q with
    | StepRes.done res sw q1 => some (res, sw, q1)
    | StepRes.cont q1 => pollLoop fuel q1
    | StepRes.stuck => none

/-- State of the intrusive MPSC wake queue alone (the fields of Inner and of
the facade that the 1024cores algorithm touches): the next_readiness links,
the atomic head, the consumer-private tail, and the sentinel address.
pending records producer enqueues whose head swap has happened but whose
forward link is not yet published (the window between lines 329 and 330),
as pairs (previous head, enqueued node). -/
structure MQ where
  nextR : Nat → Option Nat
  headR : Nat
  tailR : Nat
  stub : Nat
  pending : List (Nat × Nat)

/-- Pointwise update of a wake link. -/
def setLink (f : Nat → Option Nat) (m : Nat) (v : Option Nat) :
    Nat → Option Nat :=
  fun k => if k = m then v else f k

/-- Inner::enqueue (lines 322-331) executed atomically (as the consumer does
for the stub from inside dequeue): null the node link, swap the head, publish
the previous head's forward link. -/
def mqEnqueue (q : MQ) (n : Nat) : MQ :=
  let f1 := setLink q.nextR n none
  let prev := q.headR
  { q with nextR := setLink f1 prev (some n), headR := n }

/-- First half of a producer's Inner::enqueue (lines 327-329): null the node
link and swap the head; the forward link of the previous head is not yet
published, which is recorded in pending. -/
def mqEnqStart (q : MQ) (n : Nat) : MQ :=
  { q with nextR := setLink q.nextR n none, headR := n,
           pending := q.pending ++ [(q.headR, n)] }

/-- Second half of a producer's Inner::enqueue (line 330): publish the
forward link recorded in pending. -/
def mqEnqFinish (q : MQ) (pr : Nat × Nat) : MQ :=
  { q with nextR := setLink q.nextR pr.1 (some pr.2),
           pending := q.pending.erase pr }

/-- Shared tail of ReadyQueue::dequeue (lines 160-180) on the wake-queue
state. -/
def mqDequeueCont (q : MQ) (tail : Nat) (next : Option Nat) : DequeueR × MQ :=
  match next with
  | some nx => (DequeueR.data tail, { q with tailR := nx })
  | none =>
    if q.headR ≠ tail then (DequeueR.inconsistent, q)
    else
      let q2 := mqEnqueue q q.stub
      match q2.nextR tail with
      | some nx => (DequeueR.data tail, { q2 with tailR := nx })
      | none => (DequeueR.inconsistent, q2)

/-- ReadyQueue::dequeue (lines 143-182) on the wake-queue state. -/
def mqDequeue (q : MQ) : DequeueR × MQ :=
  let tail := q.tailR
  let next := q.nextR tail
  if tail = q.stub then
    match next with
    | none => (DequeueR.empty, q)
    | some nx =>
      let q1 := { q with tailR := nx }
      mqDequeueCont q1 nx (q1.nextR nx)
  else
    mqDequeueCont q tail next

/-- Initial wake-queue state built by ReadyQueue::new: head and tail point at
the sentinel, no links, no in-flight enqueue. -/
def mq0 : MQ :=
  { nextR := fun _ => none, headR := 0, tailR := 0, stub := 0, pending := [] }

/-- States of the wake queue reachable by any interleaving of producer
enqueues of non-sentinel Nodes (each split into its two atomic halves) with
consumer dequeues (which include the consumer's own atomic re-enqueue of the
sentinel in the fallback rule).  The side condition of start is the
debug assertion of Inner::notify (line 346): producers never enqueue the
sentinel. -/
inductive MQReach : MQ → Prop where
  | init : MQReach mq0
  | start (q : MQ) (n : Nat) : MQReach q → n ≠ q.stub → MQReach (mqEnqStart q n)
  | finish (q : MQ) (pr : Nat × Nat) : MQReach q → pr ∈ q.pending →
      MQReach (mqEnqFinish q pr)
  | deq (q : MQ) : MQReach q → MQReach (mqDequeue q).2

/-- Invariant of the wake queue: the sentinel never links to itself, and no
in-flight producer enqueue is enqueueing the sentinel. -/
def MQInv (q : MQ) : Prop :=
  q.nextR q.stub ≠ some q.stub ∧ ∀ pr ∈ q.pending, pr.2 ≠ q.stub

/-- SpawnExt::spawn_with_handle (futures-util/src/task/spawn.rs lines 66-78):
wrap the input future into a (driver, handle) pair, submit the driver through
the base spawn capability, propagate its error with the question-mark
operator, and only on success return the handle.

Modelled from the spec: FutureExt::remote_handle is defined in a source file
not included here; spec section 4.F describes it as wrapping the task into a
driver-plus-handle pair, so it is taken as an opaque pair-producing function
remoteHandle, and the base Spawn capability as a fallible consumer of the
driver. -/
def spawnWithHandle {φ δ η σ : Type} (spawn : δ → Except σ Unit)
    (remoteHandle : φ → δ × η) (fut : φ) : Except σ η :=
  match remoteHandle fut with
  | (driver, handle) =>
    match spawn driver with
    | Except.error e => Except.error e
    | Except.ok _ => Except.ok handle

/-- LocalSpawnExt::spawn_local_with_handle (futures-util/src/task/spawn.rs
lines 137-148): identical control flow over the LocalSpawn capability.

Modelled from the spec: remote_handle abstracted exactly as in
spawnWithHandle. -/
def spawnLocalWithHandle {φ δ η σ : Type} (spawnLocal : δ → Except σ Unit)
    (remoteHandle : φ → δ × η) (fut : φ) : Except σ η :=
  match remoteHandle fut with
  | (driver, handle) =>
    match spawnLocal driver with
    | Except.error e => Except.error e
    | Except.ok _ => Except.ok handle

/-- Concrete queue state used to exercise the theorems: one pending Node at
address 1 with QUEUED clear (its task ready on the next poll), a quiescent
wake queue (head and tail at the sentinel), as left behind by a poll that
found the task not ready. -/
def qPend : RQ Nat Nat :=
  { nodes := fun k =>
      if k = 0 then
        some { future := none, next_all := none, prev_all := none,
               next_readiness := none, state := QUEUED ||| 1 }
      else if k = 1 then
        some { future := some (MTask.mk [PollRes.ready 5]), next_all := none,
               prev_all := none, next_readiness := some 0, state := 1 }
      else none,
    nextId := 2, len := 1, head_all := some 1,
    tail_readiness := 0, head_readiness := 0, stub := 0,
    innerRefs := 1, parentWakes := 0, polls := [] }

/-- Concrete queue state with an already-queued Node at address 1
(QUEUED set, refcount 2): the wake queue holds it. -/
def qQueued : RQ Nat Nat :=
  { nodes := fun k =>
      if k = 0 then
        some { future := none, next_all := none, prev_all := none,
               next_readiness := some 1, state := QUEUED ||| 1 }
      else if k = 1 then
        some { future := some (MTask.mk [PollRes.ready 5]), next_all := none,
               prev_all := none, next_readiness := none, state := QUEUED ||| 2 }
      else none,
    nextId := 2, len := 1, head_all := some 1,
    tail_readiness := 0, head_readiness := 1, stub := 0,
    innerRefs := 1, parentWakes := 0, polls := [] }

/-- Concrete queue state with a Node at address 1 whose state word is
QUEUED | 1: queued with refcount 1. -/
def qRel : RQ Nat Nat :=
  { nodes := fun k =>
      if k = 0 then
        some { future := none, next_all := none, prev_all := none,
               next_readiness := some 1, state := QUEUED ||| 1 }
      else if k = 1 then
        some { future := none, next_all := none, prev_all := none,
               next_readiness := none, state := QUEUED ||| 1 }
      else none,
    nextId := 2, len := 0, head_all := none,
    tail_readiness := 0, head_readiness := 1, stub := 0,
    innerRefs := 1, parentWakes := 0, polls := [] }

/-- Concrete queue state in the unpublished-enqueue window: the consumer tail
is at Node 1 whose forward link is still null while the queue head already
moved to the sentinel, so dequeue reports Inconsistent. -/
def qInc : RQ Nat Nat :=
  { nodes := fun k =>
      if k = 0 then
        some { future := none, next_all := none, prev_all := none,
               next_readiness := none, state := QUEUED ||| 1 }
      else if k = 1 then
        some { future := some (MTask.mk []), next_all := none,
               prev_all := none, next_readiness := none, state := QUEUED ||| 1 }
      else none,
    nextId := 2, len := 1, head_all := some 1,
    tail_readiness := 1, head_readiness := 0, stub := 0,
    innerRefs := 1, parentWakes := 0, polls := [] }

/-- Concrete start state of the round-trip scenario: a fresh queue holding
one task whose first poll returns Ready(v). -/
def c1Start (v : Nat) : RQ Nat Nat :=
  pushRQ (RQnew Nat Nat) (MTask.mk [PollRes.ready v])

/-- Consumer view of the wake queue right after the scenario's first
dequeue. -/
def c1Qd (v : Nat) : RQ Nat Nat := (dequeueRQ (c1Start v)).2

/-- The scenario's task Node as the first dequeue hands it to the poll
loop. -/
def c1Node (v : Nat) : Node Nat Nat :=
  { future := some (MTask.mk [PollRes.ready v]), next_all := none,
    prev_all := none, next_readiness := some 0, state := QUEUED ||| 1 }

/-- The scenario's task Node right after its task was polled to completion:
QUEUED cleared before the poll, the exhausted task written back. -/
def c1Node2 : Node Nat Nat :=
  { future := some (MTask.mk []), next_all := none,
    prev_all := none, next_readiness := some 0,
    state := (QUEUED ||| 1) &&& NOT_QUEUED }

/-- Queue state after one completed poll of the ready-task scenario, used to
instantiate the length theorems at a concrete input. -/
def c4After : RQ Nat Nat :=
  match pollLoop 1 (pushRQ (RQnew Nat Nat) (MTask.mk [PollRes.ready 42])) with
  | some t => t.2.2
  | none => RQnew Nat Nat

/-- The sentinel Node as it looks after the scenario's first dequeue
re-enqueued it (its forward link nulled again). -/
def c1Stub : Node Nat Nat :=
  { future := none, next_all := none, prev_all := none,
    next_readiness := none, state := QUEUED ||| 1 }

/-- The Node stored at address 1 of qRel: queued with refcount 1. -/
def qRelNode : Node Nat Nat :=
  { future := none, next_all := none, prev_all := none,
    next_readiness := none, state := QUEUED ||| 1 }

/-- The heap state during release of the pushed task: the queue after the
poll of the completed task, with len already decremented (the state that
release_node receives in poll, lines 268-271). -/
def c1Rel (v : Nat) : RQ Nat Nat :=
  { afterTaskPoll (c1Qd v) 1 (MTask.mk []) with
    len := (afterTaskPoll (c1Qd v) 1 (MTask.mk [])).len - 1 }

/-- Start state of the error scenario: a fresh queue holding one task whose
first poll returns Err(7). -/
def c7Start : RQ Nat Nat :=
  pushRQ (RQnew Nat Nat) (MTask.mk [PollRes.err 7])

/-- Consumer view of the wake queue right after the error scenario's first
dequeue. -/
def c7Qd : RQ Nat Nat := (dequeueRQ c7Start).2

/-- The error scenario's task Node as the first dequeue hands it to the poll
loop. -/
def c7Node : Node Nat Nat :=
  { future := some (MTask.mk [PollRes.err 7]), next_all := none,
    prev_all := none, next_readiness := some 0, state := QUEUED ||| 1 }

/-- A reachable wake-queue state with one fully published producer enqueue of
Node 1, so the next dequeue returns Data 1. -/
def c5State : MQ := mqEnqFinish (mqEnqStart mq0 1) (0, 1)

theorem QUEUED_eq : QUEUED = 2 ^ 63 := by decide

theorem and_QUEUED_cases (s : Nat) :
    s &&& QUEUED = if s.testBit 63 then QUEUED else 0 := by
  rw [QUEUED_eq]
  have := Nat.and_two_pow s 63
  cases h : s.testBit 63 <;> simp [h] at this ⊢ <;> omega

theorem testBit_of_and_QUEUED (s : Nat) (h : s &&& QUEUED ≠ 0) :
    s.testBit 63 = true := by
  have := and_QUEUED_cases s
  cases h1 : s.testBit 63
  · rw [h1] at this; simp at this; exact absurd this h
  · rfl

theorem lor_QUEUED_of_queued (s : Nat) (h : s &&& QUEUED ≠ 0) :
    s ||| QUEUED = s := by
  have hb := testBit_of_and_QUEUED s h
  rw [QUEUED_eq]
  apply Nat.eq_of_testBit_eq
  intro i
  simp only [Nat.testBit_lor]
  rcases eq_or_ne i 63 with h3 | h3
  · subst h3
    simp [hb]
  · rw [Nat.testBit_two_pow_of_ne (Ne.symm h3)]
    simp

theorem lor_QUEUED_and (s : Nat) : (s ||| QUEUED) &&& QUEUED = QUEUED := by
  have h : (s ||| QUEUED).testBit 63 = true := by
    rw [QUEUED_eq]
    simp only [Nat.testBit_lor]
    have hq : Nat.testBit 9223372036854775808 63 = true := by decide
    simp [hq]
  rw [and_QUEUED_cases, h]
  simp

theorem lor_QUEUED_ne_zero (s : Nat) : (s ||| QUEUED) &&& QUEUED ≠ 0 := by
  rw [lor_QUEUED_and]
  decide

theorem updNode_len (q : RQ α ε) (n : Nat) (g : Node α ε → Node α ε) :
    (updNode q n g).len = q.len := rfl

theorem updNode_nodes (q : RQ α ε) (n : Nat) (g : Node α ε → Node α ε)
    (k : Nat) :
    (updNode q n g).nodes k = if k = n then (q.nodes k).map g else q.nodes k :=
  rfl

theorem enqueueRQ_len (q : RQ α ε) (n : Nat) : (enqueueRQ q n).len = q.len :=
  rfl

theorem dequeueRQ_len (q : RQ α ε) : (dequeueRQ q).2.len = q.len := by
  simp only [dequeueRQ, dequeueContRQ, enqueueRQ, updNode, nextRd]
  repeat' split
  all_goals rfl

theorem unlinkRQ_len (q : RQ α ε) (n : Nat) : (unlinkRQ q n).len = q.len := by
  simp only [unlinkRQ, updNode]
  repeat' split
  all_goals rfl

theorem releaseRQ_len (q : RQ α ε) (n : Nat) : (releaseRQ q n).len = q.len := by
  simp only [releaseRQ, updNode]
  repeat' split
  all_goals rfl

theorem releaseNodeRQ_len (q : RQ α ε) (n : Nat) :
    (releaseNodeRQ q n).len = q.len := by
  simp only [releaseNodeRQ]
  split
  · rfl
  · split
    · rw [releaseRQ_len, unlinkRQ_len, updNode_len]
    · rw [unlinkRQ_len, updNode_len]

theorem afterTaskPoll_len (q : RQ α ε) (n : Nat) (f2 : MTask α ε) :
    (afterTaskPoll q n f2).len = q.len := rfl

theorem completeFrom_len (q : RQ α ε) (n : Nat) :
    (completeFrom q n).len = q.len - 1 := by
  unfold completeFrom
  rw [releaseNodeRQ_len]

theorem pollStep_cont_len (q q1 : RQ α ε) (h : pollStep q = StepRes.cont q1) :
    q1.len = q.len := by
  unfold pollStep at h
  split at h
  · split at h <;> exact StepRes.noConfusion h
  · exact StepRes.noConfusion h
  · rename_i n qd heq
    have hl := dequeueRQ_len q
    rw [heq] at hl
    split at h
    · exact StepRes.noConfusion h
    · rename_i nd hnd
      split at h
      · rename_i f hf
        split at h
        · exact StepRes.noConfusion h
        · rename_i rc hrc
          simp only at h
          split at h
          · injection h with h2
            rw [← h2]
            show (afterTaskPoll qd n (MTask.poll f).2).len = q.len
            rw [afterTaskPoll_len]
            exact hl
          · exact StepRes.noConfusion h
          · exact StepRes.noConfusion h
      · injection h with h2
        rw [← h2, releaseRQ_len]
        exact hl

theorem pollStep_done_len (q : RQ α ε) (res : Except ε (AsyncR (Option α)))
    (sw : Bool) (q1 : RQ α ε) (h : pollStep q = StepRes.done res sw q1) :
    (res = Except.ok AsyncR.notReady → q1.len = q.len) ∧
    (res = Except.ok (AsyncR.ready none) → q1.len = q.len) ∧
    (∀ v, res = Except.ok (AsyncR.ready (some v)) → q1.len = q.len - 1) ∧
    (∀ e, res = Except.error e → q1.len = q.len - 1) := by
  unfold pollStep at h
  split at h
  · rename_i qd heq
    have hl := dequeueRQ_len q
    rw [heq] at hl
    split at h
    all_goals (injection h with h1 h2 h3; subst h1; subst h3)
    · exact ⟨fun hx => by simp at hx, fun _ => hl,
             fun v hx => by simp at hx, fun e hx => by simp at hx⟩
    · exact ⟨fun _ => hl, fun hx => by simp at hx,
             fun v hx => by simp at hx, fun e hx => by simp at hx⟩
  · rename_i qd heq
    have hl := dequeueRQ_len q
    rw [heq] at hl
    injection h with h1 h2 h3
    subst h1; subst h3
    exact ⟨fun _ => hl, fun hx => by simp at hx,
           fun v hx => by simp at hx, fun e hx => by simp at hx⟩
  · rename_i n qd heq
    have hl := dequeueRQ_len q
    rw [heq] at hl
    split at h
    · exact StepRes.noConfusion h
    · rename_i nd hnd
      split at h
      · rename_i f hf
        split at h
        · exact StepRes.noConfusion h
        · rename_i rc hrc
          simp only at h
          split at h
          · exact StepRes.noConfusion h
          all_goals (injection h with h1 h2 h3; subst h1; subst h3)
          · rename_i v hv
            have hcl : (completeFrom (afterTaskPoll qd n (MTask.poll f).2) n).len
                = q.len - 1 := by
              rw [completeFrom_len, afterTaskPoll_len, hl]
            exact ⟨fun hx => by simp at hx, fun hx => by simp at hx,
                   fun w hx => hcl, fun e hx => by simp at hx⟩
          · rename_i e he
            have hcl : (completeFrom (afterTaskPoll qd n (MTask.poll f).2) n).len
                = q.len - 1 := by
              rw [completeFrom_len, afterTaskPoll_len, hl]
            exact ⟨fun hx => by simp at hx, fun hx => by simp at hx,
                   fun w hx => by simp at hx, fun e2 hx => hcl⟩
      · exact StepRes.noConfusion h

theorem pollLoop_len (fuel : Nat) (q : RQ α ε)
    (res : Except ε (AsyncR (Option α))) (sw : Bool) (q1 : RQ α ε)
    (h : pollLoop fuel q = some (res, sw, q1)) :
    (res = Except.ok AsyncR.notReady → q1.len = q.len) ∧
    (res = Except.ok (AsyncR.ready none) → q1.len = q.len) ∧
    (∀ v, res = Except.ok (AsyncR.ready (some v)) → q1.len = q.len - 1) ∧
    (∀ e, res = Except.error e → q1.len = q.len - 1) := by
  induction fuel generalizing q with
  | zero => exact Option.noConfusion h
  | succ fuel ih =>
    unfold pollLoop at h
    split at h
    · rename_i r2 sw2 q2 hs
      injection h with h2
      injection h2 with ha hb
      injection hb with hb1 hb2
      subst ha; subst hb1; subst hb2
      exact pollStep_done_len q r2 sw2 q2 hs
    · rename_i q2 hs
      have hq2 := pollStep_cont_len q q2 hs
      have hres := ih q2 h
      rw [hq2] at hres
      exact hres
    · exact Option.noConfusion h

theorem MQInv_mq0 : MQInv mq0 := by
  constructor
  · intro h
    exact Option.noConfusion h
  · intro pr hpr
    exact absurd hpr (List.not_mem_nil pr)

theorem MQInv_enqStart (q : MQ) (n : Nat) (h : MQInv q) (hn : n ≠ q.stub) :
    MQInv (mqEnqStart q n) := by
  obtain ⟨h1, h2⟩ := h
  constructor
  · show setLink q.nextR n none q.stub ≠ some q.stub
    unfold setLink
    split
    · intro hc; exact Option.noConfusion hc
    · exact h1
  · intro pr hpr
    rcases List.mem_append.1 hpr with hin | hin
    · exact h2 pr hin
    · have : pr = (q.headR, n) := List.mem_singleton.1 hin
      rw [this]
      exact hn

theorem MQInv_enqFinish (q : MQ) (pr : Nat × Nat) (h : MQInv q)
    (hpr : pr ∈ q.pending) : MQInv (mqEnqFinish q pr) := by
  obtain ⟨h1, h2⟩ := h
  constructor
  · show setLink q.nextR pr.1 (some pr.2) q.stub ≠ some q.stub
    unfold setLink
    split
    · intro hc
      injection hc with hc2
      exact h2 pr hpr hc2
    · exact h1
  · intro pr2 hpr2
    exact h2 pr2 (List.mem_of_mem_erase hpr2)

theorem mqEnqueue_inv (q : MQ) (n : Nat) (h : MQInv q) (hn : n ≠ q.stub) :
    MQInv (mqEnqueue q n) := by
  obtain ⟨h1, h2⟩ := h
  constructor
  · show setLink (setLink q.nextR n none) q.headR (some n) q.stub ≠ some q.stub
    unfold setLink
    split
    · intro hc
      injection hc with hc2
      exact hn hc2
    · split
      · intro hc; exact Option.noConfusion hc
      · exact h1
  · intro pr hpr
    exact h2 pr hpr

theorem mqEnqueue_stub_inv (q : MQ) (h : MQInv q) (hh : q.headR ≠ q.stub) :
    MQInv (mqEnqueue q q.stub) := by
  obtain ⟨h1, h2⟩ := h
  constructor
  · show setLink (setLink q.nextR q.stub none) q.headR (some q.stub) q.stub ≠
      some q.stub
    unfold setLink
    split
    · rename_i hc
      exact absurd hc.symm hh
    · split
      · intro hc; exact Option.noConfusion hc
      · rename_i hc2
        exact absurd rfl hc2
  · exact fun pr hpr => h2 pr hpr

theorem mqDequeueCont_not_stub_inv (q : MQ) (tail : Nat) (next : Option Nat)
    (h : MQInv q) (htail : tail ≠ q.stub) :
    (mqDequeueCont q tail next).1 ≠ DequeueR.data q.stub ∧
    MQInv (mqDequeueCont q tail next).2 ∧
    (mqDequeueCont q tail next).2.stub = q.stub := by
  unfold mqDequeueCont
  cases next with
  | some nx =>
    exact ⟨fun hc => by injection hc with hc2; exact htail hc2, h, rfl⟩
  | none =>
    simp only []
    by_cases hh : q.headR ≠ tail
    · rw [if_pos hh]
      exact ⟨fun hc => DequeueR.noConfusion hc, h, rfl⟩
    · rw [if_neg hh]
      have hhe : q.headR = tail := of_not_not hh
      have hinv2 : MQInv (mqEnqueue q q.stub) :=
        mqEnqueue_stub_inv q h (by rw [hhe]; exact htail)
      split
      · exact ⟨fun hc => by injection hc with hc2; exact htail hc2, hinv2, rfl⟩
      · exact ⟨fun hc => DequeueR.noConfusion hc, hinv2, rfl⟩

theorem mqDequeue_not_stub_inv (q : MQ) (h : MQInv q) :
    (mqDequeue q).1 ≠ DequeueR.data q.stub ∧ MQInv (mqDequeue q).2 ∧
    (mqDequeue q).2.stub = q.stub := by
  have h1 := h.1
  unfold mqDequeue
  simp only []
  split
  · rename_i htail
    split
    · exact ⟨fun hc => DequeueR.noConfusion hc, h, rfl⟩
    · rename_i nx hnx
      have hnxs : nx ≠ q.stub := by
        intro hc
        rw [htail, hc] at hnx
        exact h1 hnx
      exact mqDequeueCont_not_stub_inv { q with tailR := nx } nx
        (({ q with tailR := nx } : MQ).nextR nx) h hnxs
  · rename_i htail
    exact mqDequeueCont_not_stub_inv q q.tailR (q.nextR q.tailR) h htail

theorem MQReach_inv (q : MQ) (h : MQReach q) : MQInv q := by
  induction h with
  | init => exact MQInv_mq0
  | start q2 n h2 hn ih => exact MQInv_enqStart q2 n ih hn
  | finish q2 pr h2 hpr ih => exact MQInv_enqFinish q2 pr ih hpr
  | deq q2 h2 ih => exact (mqDequeue_not_stub_inv q2 ih).2.1

theorem notifyN_absorbed (k : Nat) (s : Nat) (h : s &&& QUEUED ≠ 0) :
    notifyN k s = (s, 0) := by
  induction k with
  | zero => rfl
  | succ k ih =>
    unfold notifyN notifyWord
    simp only []
    have hb : (decide (s &&& QUEUED = 0)) = false := by
      simp [h]
    rw [lor_QUEUED_of_queued s h, ih]
    simp [hb]

theorem notifyN_first (k : Nat) (s : Nat) (h : s &&& QUEUED = 0) :
    notifyN (k + 1) s = (s ||| QUEUED, 1) := by
  unfold notifyN notifyWord
  simp only []
  have hb : (decide (s &&& QUEUED = 0)) = true := by
    simp [h]
  rw [notifyN_absorbed k (s ||| QUEUED) (lor_QUEUED_ne_zero s)]
  simp [hb]

theorem unlinkRQ_polls (q : RQ α ε) (n : Nat) : (unlinkRQ q n).polls = q.polls := by
  simp only [unlinkRQ, updNode]
  repeat' split
  all_goals rfl

theorem releaseRQ_polls (q : RQ α ε) (n : Nat) :
    (releaseRQ q n).polls = q.polls := by
  simp only [releaseRQ, updNode]
  repeat' split
  all_goals rfl

theorem releaseNodeRQ_polls (q : RQ α ε) (n : Nat) :
    (releaseNodeRQ q n).polls = q.polls := by
  simp only [releaseNodeRQ]
  split
  · rfl
  · split
    · rw [releaseRQ_polls, unlinkRQ_polls]; rfl
    · rw [unlinkRQ_polls]; rfl

theorem completeFrom_polls (q : RQ α ε) (n : Nat) :
    (completeFrom q n).polls = q.polls := by
  unfold completeFrom
  rw [releaseNodeRQ_polls]

theorem afterTaskPoll_polls (q : RQ α ε) (n : Nat) (f2 : MTask α ε) :
    (afterTaskPoll q n f2).polls = q.polls ++ [n] := rfl

theorem pollStep_polls (q : RQ α ε) (n : Nat) (q1 : RQ α ε) (nd : Node α ε)
    (f : MTask α ε) (hd : dequeueRQ q = (DequeueR.data n, q1))
    (hn : q1.nodes n = some nd) (hf : nd.future = some f)
    (hc : q1.innerRefs ≤ MAX_REFS) :
    ∃ st, (pollStep q = StepRes.cont st ∨
           ∃ r sw, pollStep q = StepRes.done r sw st) ∧
      st.polls = q1.polls ++ [n] := by
  have hcl : cloneRawCount q1.innerRefs = some ((q1.innerRefs + 1) % usizeMod) := by
    unfold cloneRawCount
    rw [if_neg (not_lt.2 hc)]
  unfold pollStep
  rw [hd]
  simp only []
  rw [hn]
  simp only []
  rw [hf]
  simp only []
  rw [hcl]
  simp only []
  rcases hpr : MTask.poll f with ⟨res, f2⟩
  cases res with
  | notReady =>
    refine ⟨_, Or.inl rfl, ?_⟩
    show (afterTaskPoll q1 n f2).polls = q1.polls ++ [n]
    rw [afterTaskPoll_polls]
  | ready v =>
    refine ⟨_, Or.inr ⟨_, _, rfl⟩, ?_⟩
    rw [completeFrom_polls, afterTaskPoll_polls]
  | err e =>
    refine ⟨_, Or.inr ⟨_, _, rfl⟩, ?_⟩
    rw [completeFrom_polls, afterTaskPoll_polls]

theorem enqueueRQ_nodes (q : RQ α ε) (s k : Nat) :
    (enqueueRQ q s).nodes k =
      if k = q.head_readiness then
        (if k = s then (q.nodes k).map (fun x => { x with next_readiness := none })
         else q.nodes k).map (fun x => { x with next_readiness := some s })
      else if k = s then (q.nodes k).map (fun x => { x with next_readiness := none })
      else q.nodes k := rfl

theorem enqueueRQ_head (q : RQ α ε) (s : Nat) :
    (enqueueRQ q s).head_readiness = s := rfl

theorem enqueueRQ_tail (q : RQ α ε) (s : Nat) :
    (enqueueRQ q s).tail_readiness = q.tail_readiness := rfl

theorem enqueueRQ_stubf (q : RQ α ε) (s : Nat) :
    (enqueueRQ q s).stub = q.stub := rfl

theorem dequeueRQ_single (qa : RQ α ε) (n : Nat) (ndq sndq : Node α ε)
    (htl : qa.tail_readiness = qa.stub)
    (hhd : qa.head_readiness = n)
    (hns : n ≠ qa.stub)
    (hsn : qa.nodes qa.stub = some sndq)
    (hsnx : sndq.next_readiness = some n)
    (hn : qa.nodes n = some ndq)
    (hnx : ndq.next_readiness = none) :
    dequeueRQ qa = (DequeueR.data n,
      { enqueueRQ { qa with tail_readiness := n }
          (({ qa with tail_readiness := n } : RQ α ε).stub) with
        tail_readiness := qa.stub }) := by
  unfold dequeueRQ
  simp only []
  rw [if_pos htl]
  have h1 : nextRd qa qa.tail_readiness = some n := by
    unfold nextRd
    rw [htl, hsn]
    exact hsnx
  rw [h1]
  simp only []
  have h2 : nextRd { qa with tail_readiness := n } n = none := by
    unfold nextRd
    have he : ({ qa with tail_readiness := n } : RQ α ε).nodes n = qa.nodes n := rfl
    rw [he, hn]
    exact hnx
  rw [h2]
  unfold dequeueContRQ
  simp only []
  have h3 : ¬ (({ qa with tail_readiness := n } : RQ α ε).head_readiness ≠ n) := by
    show ¬ (qa.head_readiness ≠ n)
    rw [hhd]
    exact fun hc => hc rfl
  rw [if_neg h3]
  have h4 : nextRd (enqueueRQ { qa with tail_readiness := n }
      (({ qa with tail_readiness := n } : RQ α ε).stub)) n = some qa.stub := by
    unfold nextRd
    rw [enqueueRQ_nodes]
    have hh : ({ qa with tail_readiness := n } : RQ α ε).head_readiness
        = qa.head_readiness := rfl
    have hs : ({ qa with tail_readiness := n } : RQ α ε).stub = qa.stub := rfl
    have hq : ({ qa with tail_readiness := n } : RQ α ε).nodes n = qa.nodes n := rfl
    rw [hh, hhd, if_pos rfl, hs, if_neg hns, hq, hn]
    rfl
  rw [h4]

theorem notifyRQ_requeues (q : RQ α ε) (n : Nat) (nd snd : Node α ε)
    (hn : q.nodes n = some nd) (hns : n ≠ q.stub)
    (hstate : nd.state &&& QUEUED = 0)
    (htail : q.tail_readiness = q.stub) (hhead : q.head_readiness = q.stub)
    (hsn : q.nodes q.stub = some snd) :
    (notifyRQ q n).parentWakes = q.parentWakes + 1 ∧
    ∃ qb, dequeueRQ (notifyRQ q n) = (DequeueR.data n, qb) ∧
      qb.nodes n = some { nd with state := nd.state ||| QUEUED,
                                  next_readiness := some q.stub } ∧
      qb.innerRefs = q.innerRefs ∧ qb.polls = q.polls ∧ qb.len = q.len := by
  have hsymm : q.stub ≠ n := Ne.symm hns
  have hqa : notifyRQ q n =
      { enqueueRQ (updNode q n
          (fun x => { x with state := x.state ||| QUEUED })) n with
        parentWakes := (enqueueRQ (updNode q n
          (fun x => { x with state := x.state ||| QUEUED })) n).parentWakes + 1 } := by
    unfold notifyRQ
    rw [hn]
    simp only []
    rw [if_pos hstate]
  rw [hqa]
  refine ⟨rfl, ?_⟩
  have hqa_n : (notifyRQ q n).nodes n =
      some { nd with state := nd.state ||| QUEUED, next_readiness := none } := by
    rw [hqa]
    show (enqueueRQ (updNode q n
      (fun x => { x with state := x.state ||| QUEUED })) n).nodes n = _
    rw [enqueueRQ_nodes]
    have hh : (updNode q n (fun x => { x with state := x.state ||| QUEUED })
        : RQ α ε).head_readiness = q.head_readiness := rfl
    rw [hh, hhead, if_neg hns, if_pos rfl, updNode_nodes, if_pos rfl, hn]
    rfl
  have hqa_s : (notifyRQ q n).nodes q.stub =
      some { snd with next_readiness := some n } := by
    rw [hqa]
    show (enqueueRQ (updNode q n
      (fun x => { x with state := x.state ||| QUEUED })) n).nodes q.stub = _
    rw [enqueueRQ_nodes]
    have hh : (updNode q n (fun x => { x with state := x.state ||| QUEUED })
        : RQ α ε).head_readiness = q.head_readiness := rfl
    rw [hh, hhead, if_pos rfl, if_neg hsymm, updNode_nodes, if_neg hsymm, hsn]
    rfl
  rw [← hqa]
  have hd := dequeueRQ_single (notifyRQ q n) n
    { nd with state := nd.state ||| QUEUED, next_readiness := none }
    { snd with next_readiness := some n }
    (by rw [hqa]; exact htail)
    (by rw [hqa]; rfl)
    (by rw [hqa]; exact hns)
    (by rw [show (notifyRQ q n).stub = q.stub from by rw [hqa]; rfl]; exact hqa_s)
    rfl
    hqa_n
    rfl
  refine ⟨_, hd, ?_, ?_, ?_, ?_⟩
  · show (enqueueRQ { notifyRQ q n with tail_readiness := n }
        (({ notifyRQ q n with tail_readiness := n } : RQ α ε).stub)).nodes n = _
    rw [enqueueRQ_nodes]
    have hh : ({ notifyRQ q n with tail_readiness := n } : RQ α ε).head_readiness
        = (notifyRQ q n).head_readiness := rfl
    have hh2 : (notifyRQ q n).head_readiness = n := by rw [hqa]; rfl
    have hs : ({ notifyRQ q n with tail_readiness := n } : RQ α ε).stub
        = (notifyRQ q n).stub := rfl
    have hs2 : (notifyRQ q n).stub = q.stub := by rw [hqa]; rfl
    have hq : ({ notifyRQ q n with tail_readiness := n } : RQ α ε).nodes n
        = (notifyRQ q n).nodes n := rfl
    rw [hh, hh2, if_pos rfl, hs, hs2, if_neg hns, hq, hqa_n]
    rfl
  · show (notifyRQ q n).innerRefs = q.innerRefs
    rw [hqa]
    rfl
  · show (notifyRQ q n).polls = q.polls
    rw [hqa]
    rfl
  · show (notifyRQ q n).len = q.len
    rw [hqa]
    rfl

theorem updNode_bind_future (q : RQ α ε) (m k : Nat) (g : Node α ε → Node α ε)
    (hg : ∀ x, (g x).future = x.future) :
    ((updNode q m g).nodes k).bind Node.future = (q.nodes k).bind Node.future := by
  rw [updNode_nodes]
  split
  · cases hk : q.nodes k with
    | none => rfl
    | some x => simp [hg]
  · rfl

theorem unlinkRQ_bind_future (q : RQ α ε) (m k : Nat) :
    ((unlinkRQ q m).nodes k).bind Node.future = (q.nodes k).bind Node.future := by
  unfold unlinkRQ
  split
  · rfl
  · rename_i nd hnd
    simp only []
    split
    · split
      · refine (updNode_bind_future _ _ k _ ?_).trans
          (updNode_bind_future _ _ k _ ?_) <;> (intro x; rfl)
      · refine updNode_bind_future _ _ k _ ?_
        intro x; rfl
    · split
      · refine updNode_bind_future _ _ k _ ?_
        intro x; rfl
      · rfl

theorem releaseRQ_bind_future (q : RQ α ε) (n : Nat)
    (h : ((q.nodes n).bind Node.future) = none) :
    (((releaseRQ q n).nodes n).bind Node.future) = none := by
  unfold releaseRQ
  split
  · exact h
  · rename_i nd hnd
    simp only []
    split
    · simp
    · refine Eq.trans (updNode_bind_future _ _ n _ ?_) h
      intro x; rfl

theorem releaseNodeRQ_slot (q : RQ α ε) (n : Nat) :
    (((releaseNodeRQ q n).nodes n).bind Node.future) = none := by
  unfold releaseNodeRQ
  split
  · rename_i heq
    rw [heq]
    rfl
  · rename_i nd hnd
    simp only []
    have h1 : (((updNode q n (fun x =>
        { x with state := x.state ||| QUEUED, future := none })).nodes n).bind
          Node.future) = none := by
      rw [updNode_nodes, if_pos rfl, hnd]
      rfl
    have h2 : (((unlinkRQ (updNode q n (fun x =>
        { x with state := x.state ||| QUEUED, future := none })) n).nodes n).bind
          Node.future) = none := by
      rw [unlinkRQ_bind_future]
      exact h1
    split
    · exact releaseRQ_bind_future _ n h2
    · exact h2

theorem completeFrom_slot (q : RQ α ε) (n : Nat) :
    (((completeFrom q n).nodes n).bind Node.future) = none := by
  unfold completeFrom
  rw [releaseNodeRQ_slot]

/-- C4: push increases len by exactly 1; a poll call returning Ready(Some v)
decreases len by exactly 1; the Pending (NotReady) and Ready(None) outcomes
leave len unchanged. -/
theorem spec_c4 (α ε : Type) :
    (∀ (q : RQ α ε) (t : MTask α ε), (pushRQ q t).len = q.len + 1) ∧
    (∀ (fuel : Nat) (q q1 : RQ α ε) (v : α) (sw : Bool),
      pollLoop fuel q = some (Except.ok (AsyncR.ready (some v)), sw, q1) →
      q1.len = q.len - 1 ∧ (1 ≤ q.len → q1.len + 1 = q.len)) ∧
    (∀ (fuel : Nat) (q q1 : RQ α ε) (sw : Bool),
      pollLoop fuel q = some (Except.ok AsyncR.notReady, sw, q1) →
      q1.len = q.len) ∧
    (∀ (fuel : Nat) (q q1 : RQ α ε) (sw : Bool),
      pollLoop fuel q = some (Except.ok (AsyncR.ready none), sw, q1) →
      q1.len = q.len) := by
  refine ⟨?_, ?_, ?_, ?_⟩
  · intro q t
    obtain ⟨nds, nid, ln, ha, tr, hr, st, ir, pw, pl⟩ := q
    cases ha <;> rfl
  · intro fuel q q1 v sw h
    have hl := (pollLoop_len fuel q _ sw q1 h).2.2.1 v rfl
    exact ⟨hl, fun hge => by omega⟩
  · intro fuel q q1 sw h
    exact (pollLoop_len fuel q _ sw q1 h).1 rfl
  · intro fuel q q1 sw h
    exact (pollLoop_len fuel q _ sw q1 h).2.1 rfl

theorem spec_c4_witness :
    (pushRQ (RQnew Nat Nat) (MTask.mk [PollRes.ready 42])).len
        = (RQnew Nat Nat).len + 1 ∧
    c4After.len + 1 = (pushRQ (RQnew Nat Nat) (MTask.mk [PollRes.ready 42])).len ∧
    qPend.len = qPend.len ∧ (RQnew Nat Nat).len = (RQnew Nat Nat).len := by
  refine ⟨(spec_c4 Nat Nat).1 (RQnew Nat Nat) (MTask.mk [PollRes.ready 42]),
          ((spec_c4 Nat Nat).2.1 1 (pushRQ (RQnew Nat Nat)
            (MTask.mk [PollRes.ready 42])) c4After 42 false rfl).2 (by decide),
          (spec_c4 Nat Nat).2.2.1 1 qPend qPend false rfl,
          (spec_c4 Nat Nat).2.2.2 1 (RQnew Nat Nat) (RQnew Nat Nat) false rfl⟩

/-- C6: whenever the consumer poll observes an Inconsistent dequeue, it
self-wakes (task::current().notify()) and returns NotReady; Inconsistent is
never surfaced as an error or as end-of-stream. -/
theorem spec_c6 (α ε : Type) (q q1 : RQ α ε) (fuel : Nat)
    (hd : dequeueRQ q = (DequeueR.inconsistent, q1)) :
    pollLoop (fuel + 1) q = some (Except.ok AsyncR.notReady, true, q1) := by
  have hs : pollStep q = StepRes.done (Except.ok AsyncR.notReady) true q1 := by
    unfold pollStep
    rw [hd]
  unfold pollLoop
  rw [hs]

theorem spec_c6_witness :
    dequeueRQ qInc = (DequeueR.inconsistent, qInc) ∧
    pollLoop 1 qInc = some (Except.ok AsyncR.notReady, true, qInc) :=
  ⟨rfl, spec_c6 Nat Nat qInc qInc 0 rfl⟩

/-- C7: a polled task that returns an error is treated identically to
completion: the poll loop returns the error verbatim, and the post state is
the same function of the loop state as in the Ready case (len decremented by
one, then release_node, which drops the task slot so the Node's future is
gone). -/
theorem spec_c7 (α ε : Type) (q q1 : RQ α ε) (n : Nat) (nd : Node α ε)
    (f f2 : MTask α ε) (e : ε) (v : α) (fuel : Nat)
    (hd : dequeueRQ q = (DequeueR.data n, q1)) (hn : q1.nodes n = some nd)
    (hf : nd.future = some f) (hrefs : q1.innerRefs ≤ MAX_REFS) :
    (MTask.poll f = (PollRes.err e, f2) →
      pollLoop (fuel + 1) q = some (Except.error e, false,
        completeFrom (afterTaskPoll q1 n f2) n) ∧
      (completeFrom (afterTaskPoll q1 n f2) n).len = q1.len - 1 ∧
      (((completeFrom (afterTaskPoll q1 n f2) n).nodes n).bind Node.future)
        = none) ∧
    (MTask.poll f = (PollRes.ready v, f2) →
      pollLoop (fuel + 1) q = some (Except.ok (AsyncR.ready (some v)), false,
        completeFrom (afterTaskPoll q1 n f2) n)) := by
  have hcl : cloneRawCount q1.innerRefs = some ((q1.innerRefs + 1) % usizeMod) := by
    unfold cloneRawCount
    rw [if_neg (not_lt.2 hrefs)]
  constructor
  · intro hpoll
    have hs : pollStep q = StepRes.done (Except.error e) false
        (completeFrom (afterTaskPoll q1 n f2) n) := by
      unfold pollStep
      rw [hd]
      simp only []
      rw [hn]
      simp only []
      rw [hf]
      simp only []
      rw [hcl]
      simp only []
      rw [hpoll]
    refine ⟨?_, ?_, completeFrom_slot _ n⟩
    · unfold pollLoop
      rw [hs]
    · rw [completeFrom_len, afterTaskPoll_len]
  · intro hpoll
    have hs : pollStep q = StepRes.done (Except.ok (AsyncR.ready (some v))) false
        (completeFrom (afterTaskPoll q1 n f2) n) := by
      unfold pollStep
      rw [hd]
      simp only []
      rw [hn]
      simp only []
      rw [hf]
      simp only []
      rw [hcl]
      simp only []
      rw [hpoll]
    unfold pollLoop
    rw [hs]

theorem unlinkRQ_tail (q : RQ α ε) (n : Nat) :
    (unlinkRQ q n).tail_readiness = q.tail_readiness := by
  simp only [unlinkRQ, updNode]
  repeat' split
  all_goals rfl

theorem releaseRQ_tail (q : RQ α ε) (n : Nat) :
    (releaseRQ q n).tail_readiness = q.tail_readiness := by
  simp only [releaseRQ, updNode]
  repeat' split
  all_goals rfl

theorem releaseNodeRQ_tail (q : RQ α ε) (n : Nat) :
    (releaseNodeRQ q n).tail_readiness = q.tail_readiness := by
  simp only [releaseNodeRQ]
  split
  · rfl
  · split
    · rw [releaseRQ_tail, unlinkRQ_tail]
      rfl
    · rw [unlinkRQ_tail]
      rfl

theorem completeFrom_tail (q : RQ α ε) (n : Nat) :
    (completeFrom q n).tail_readiness = q.tail_readiness := by
  unfold completeFrom
  rw [releaseNodeRQ_tail]

theorem unlinkRQ_stub (q : RQ α ε) (n : Nat) :
    (unlinkRQ q n).stub = q.stub := by
  simp only [unlinkRQ, updNode]
  repeat' split
  all_goals rfl

theorem releaseRQ_stub (q : RQ α ε) (n : Nat) :
    (releaseRQ q n).stub = q.stub := by
  simp only [releaseRQ, updNode]
  repeat' split
  all_goals rfl

theorem releaseNodeRQ_stub (q : RQ α ε) (n : Nat) :
    (releaseNodeRQ q n).stub = q.stub := by
  simp only [releaseNodeRQ]
  split
  · rfl
  · split
    · rw [releaseRQ_stub, unlinkRQ_stub]
      rfl
    · rw [unlinkRQ_stub]
      rfl

theorem completeFrom_stub (q : RQ α ε) (n : Nat) :
    (completeFrom q n).stub = q.stub := by
  unfold completeFrom
  rw [releaseNodeRQ_stub]

theorem pollLoop_data_ready (q q1 : RQ α ε) (n : Nat) (nd : Node α ε)
    (f f2 : MTask α ε) (v : α) (fuel : Nat)
    (hd : dequeueRQ q = (DequeueR.data n, q1)) (hn : q1.nodes n = some nd)
    (hf : nd.future = some f) (hrefs : q1.innerRefs ≤ MAX_REFS)
    (hpoll : MTask.poll f = (PollRes.ready v, f2)) :
    pollLoop (fuel + 1) q = some (Except.ok (AsyncR.ready (some v)), false,
      completeFrom (afterTaskPoll q1 n f2) n) := by
  have hcl : cloneRawCount q1.innerRefs = some ((q1.innerRefs + 1) % usizeMod) := by
    unfold cloneRawCount
    rw [if_neg (not_lt.2 hrefs)]
  have hs : pollStep q = StepRes.done (Except.ok (AsyncR.ready (some v))) false
      (completeFrom (afterTaskPoll q1 n f2) n) := by
    unfold pollStep
    rw [hd]
    simp only []
    rw [hn]
    simp only []
    rw [hf]
    simp only []
    rw [hcl]
    simp only []
    rw [hpoll]
  unfold pollLoop
  rw [hs]

theorem pollLoop_empty (q : RQ α ε) (fuel : Nat)
    (h1 : q.tail_readiness = q.stub) (h2 : nextRd q q.stub = none)
    (h3 : q.len = 0) :
    pollLoop (fuel + 1) q = some (Except.ok (AsyncR.ready none), false, q) := by
  have hd : dequeueRQ q = (DequeueR.empty, q) := by
    unfold dequeueRQ
    simp only []
    rw [if_pos h1]
    have hx : nextRd q q.tail_readiness = none := by
      rw [h1]
      exact h2
    rw [hx]
  have hs : pollStep q = StepRes.done (Except.ok (AsyncR.ready none)) false q := by
    unfold pollStep
    rw [hd]
    simp only []
    rw [if_pos h3]
  unfold pollLoop
  rw [hs]

theorem releaseRQ_nodes_eq (q : RQ α ε) (n : Nat) (nd : Node α ε)
    (hn : q.nodes n = some nd) (hfree : (releaseWord nd.state).2 = true) :
    ∀ k, (releaseRQ q n).nodes k = if k = n then none else q.nodes k := by
  intro k
  unfold releaseRQ
  rw [hn]
  simp only []
  rw [if_pos hfree]

theorem unlinkRQ_nodes_nolinks (q : RQ α ε) (n : Nat) (nd : Node α ε)
    (hn : q.nodes n = some nd) (hna : nd.next_all = none)
    (hpa : nd.prev_all = none) :
    (unlinkRQ q n).nodes = q.nodes := by
  unfold unlinkRQ
  rw [hn]
  simp only []
  rw [hna, hpa]

theorem releaseNodeRQ_frees (q : RQ α ε) (n : Nat) (nd : Node α ε)
    (hn : q.nodes n = some nd)
    (hna : nd.next_all = none) (hpa : nd.prev_all = none)
    (hq : nd.state &&& QUEUED = 0)
    (hw : (nd.state ||| QUEUED) &&& NOT_QUEUED = 1) :
    (releaseNodeRQ q n).nodes n = none ∧
    ∀ k, k ≠ n → (releaseNodeRQ q n).nodes k = q.nodes k := by
  unfold releaseNodeRQ
  rw [hn]
  simp only []
  rw [if_pos hq]
  have hAn : (updNode q n (fun x =>
      { x with state := x.state ||| QUEUED, future := none })).nodes n =
      some { nd with state := nd.state ||| QUEUED, future := none } := by
    rw [updNode_nodes, if_pos rfl, hn]
    rfl
  have hu : (unlinkRQ (updNode q n (fun x =>
      { x with state := x.state ||| QUEUED, future := none })) n).nodes =
      (updNode q n (fun x =>
      { x with state := x.state ||| QUEUED, future := none })).nodes :=
    unlinkRQ_nodes_nolinks _ n
      { nd with state := nd.state ||| QUEUED, future := none } hAn hna hpa
  have hBn : (unlinkRQ (updNode q n (fun x =>
      { x with state := x.state ||| QUEUED, future := none })) n).nodes n =
      some { nd with state := nd.state ||| QUEUED, future := none } := by
    rw [hu]
    exact hAn
  have hfree :
      (releaseWord
        ({ nd with state := nd.state ||| QUEUED, future := none } : Node α ε).state).2
        = true := by
    unfold releaseWord
    simp only []
    exact decide_eq_true hw
  have hrel := releaseRQ_nodes_eq (unlinkRQ (updNode q n (fun x =>
      { x with state := x.state ||| QUEUED, future := none })) n) n
      { nd with state := nd.state ||| QUEUED, future := none } hBn hfree
  constructor
  · rw [hrel n, if_pos rfl]
  · intro k hk
    rw [hrel k, if_neg hk, hu, updNode_nodes, if_neg hk]

theorem completeFrom_nodes (q q' : RQ α ε) (n k : Nat)
    (h : ({ q with len := q.len - 1 } : RQ α ε) = q') :
    (completeFrom q n).nodes k = (releaseNodeRQ q' n).nodes k := by
  subst h
  rfl

theorem pollLoop_empty_of (q : RQ α ε) (fuel s : Nat) (snd : Node α ε)
    (htail : q.tail_readiness = s) (hs : q.stub = s)
    (hval : q.nodes s = some snd) (hnx : snd.next_readiness = none)
    (hlen : q.len = 0) :
    pollLoop (fuel + 1) q = some (Except.ok (AsyncR.ready none), false, q) := by
  apply pollLoop_empty q fuel
  · rw [htail, hs]
  · rw [hs]
    unfold nextRd
    rw [hval]
    exact hnx
  · exact hlen

set_option maxRecDepth 8192 in
/-- C1: pushing a task whose first poll returns Ready(v) into a fresh
ReadyQueue and polling yields Ready(Some(v)) exactly once: the first poll
returns Ready(Some v), a second poll on the then-empty queue returns
Ready(None) and leaves the state unchanged, and the completed task's Node
has been freed with its slot cleared (and was polled exactly once), so the
task is never polled again. -/
theorem spec_c1 (v : Nat) :
    ∃ q2 : RQ Nat Nat,
      pollLoop 1 (c1Start v) =
        some (Except.ok (AsyncR.ready (some v)), false, q2) ∧
      pollLoop 1 q2 = some (Except.ok (AsyncR.ready none), false, q2) ∧
      q2.nodes 1 = none ∧ q2.len = 0 ∧ q2.polls = [1] := by
  have hd : dequeueRQ (c1Start v) = (DequeueR.data 1, c1Qd v) := rfl
  have hn : (c1Qd v).nodes 1 = some (c1Node v) := rfl
  have hf : (c1Node v).future = some (MTask.mk [PollRes.ready v]) := rfl
  have hrefs : (c1Qd v).innerRefs ≤ MAX_REFS := by
    show (1 : Nat) ≤ MAX_REFS
    decide
  have hpoll : MTask.poll (MTask.mk [PollRes.ready v] : MTask Nat Nat) =
      (PollRes.ready v, MTask.mk []) := rfl
  have h1 := pollLoop_data_ready (c1Start v) (c1Qd v) 1 (c1Node v)
    (MTask.mk [PollRes.ready v]) (MTask.mk []) v 0 hd hn hf hrefs hpoll
  have hn4 : (c1Rel v).nodes 1 = some c1Node2 := rfl
  have hfr := releaseNodeRQ_frees (c1Rel v) 1
    c1Node2 hn4 rfl rfl (by decide) (by decide)
  have hcf0 := completeFrom_nodes (afterTaskPoll (c1Qd v) 1 (MTask.mk []))
    (c1Rel v) 1 0 rfl
  have hcf1 := completeFrom_nodes (afterTaskPoll (c1Qd v) 1 (MTask.mk []))
    (c1Rel v) 1 1 rfl
  have hval : (completeFrom (afterTaskPoll (c1Qd v) 1 (MTask.mk [])) 1).nodes 0 =
      some c1Stub := hcf0.trans ((hfr.2 0 (by decide)).trans rfl)
  have htail : (completeFrom (afterTaskPoll (c1Qd v) 1 (MTask.mk [])) 1).tail_readiness
      = 0 := by
    rw [completeFrom_tail]
    rfl
  have hstub : (completeFrom (afterTaskPoll (c1Qd v) 1 (MTask.mk [])) 1).stub = 0 := by
    rw [completeFrom_stub]
    rfl
  have hlen : (completeFrom (afterTaskPoll (c1Qd v) 1 (MTask.mk [])) 1).len = 0 := by
    rw [completeFrom_len, afterTaskPoll_len]
    rfl
  have hpolls : (completeFrom (afterTaskPoll (c1Qd v) 1 (MTask.mk [])) 1).polls
      = [1] := by
    rw [completeFrom_polls, afterTaskPoll_polls]
    rfl
  refine ⟨completeFrom (afterTaskPoll (c1Qd v) 1 (MTask.mk [])) 1, h1, ?_,
    hcf1.trans hfr.1, hlen, hpolls⟩
  exact pollLoop_empty_of _ 0 0 c1Stub htail hstub hval rfl hlen

/-- C2: for every interleaving of N concurrent notify calls on a single
pending Node during one poll drive (each call an atomic fetch_or, so any
concurrent execution linearizes to a sequence), exactly the first call that
observes QUEUED clear enqueues the Node, every later call is absorbed, and
the enqueued Node is polled one additional time by the next poll step; no
wake is lost. -/
theorem spec_c2 (α ε : Type) (s k : Nat) :
    (s &&& QUEUED = 0 → notifyN (k + 1) s = (s ||| QUEUED, 1)) ∧
    (s &&& QUEUED ≠ 0 → notifyN k s = (s, 0)) ∧
    (∀ (q : RQ α ε) (n : Nat) (nd snd : Node α ε) (f : MTask α ε),
      q.nodes n = some nd → n ≠ q.stub → nd.state &&& QUEUED = 0 →
      nd.future = some f → q.tail_readiness = q.stub →
      q.head_readiness = q.stub → q.nodes q.stub = some snd →
      q.innerRefs ≤ MAX_REFS →
      (notifyRQ q n).parentWakes = q.parentWakes + 1 ∧
      ∃ st, (pollStep (notifyRQ q n) = StepRes.cont st ∨
             ∃ r sw, pollStep (notifyRQ q n) = StepRes.done r sw st) ∧
        st.polls = q.polls ++ [n]) := by
  refine ⟨fun h => notifyN_first k s h, fun h => notifyN_absorbed k s h, ?_⟩
  intro q n nd snd f hn hns hst hfut htail hhead hsn hrefs
  obtain ⟨hpw, qb, hdq, hqbn, hqbi, hqbp, hqbl⟩ :=
    notifyRQ_requeues q n nd snd hn hns hst htail hhead hsn
  refine ⟨hpw, ?_⟩
  have hfut2 : ({ nd with state := nd.state ||| QUEUED, next_readiness := some q.stub } : Node α ε).future = some f := hfut
  have hrefs2 : qb.innerRefs ≤ MAX_REFS := by
    rw [hqbi]
    exact hrefs
  obtain ⟨st, hstep, hpolls⟩ := pollStep_polls (notifyRQ q n) n qb _ f hdq
    hqbn hfut2 hrefs2
  exact ⟨st, hstep, by rw [hpolls, hqbp]⟩

theorem spec_c2_witness :
    notifyN 3 1 = (1 ||| QUEUED, 1) ∧
    notifyN 2 (QUEUED ||| 1) = (QUEUED ||| 1, 0) ∧
    ((notifyRQ qPend 1).parentWakes = qPend.parentWakes + 1 ∧
      ∃ st, (pollStep (notifyRQ qPend 1) = StepRes.cont st ∨
             ∃ r sw, pollStep (notifyRQ qPend 1) = StepRes.done r sw st) ∧
        st.polls = qPend.polls ++ [1]) := by
  refine ⟨(spec_c2 Nat Nat 1 2).1 (by decide),
          (spec_c2 Nat Nat (QUEUED ||| 1) 2).2.1 (by decide), ?_⟩
  exact (spec_c2 Nat Nat 1 2).2.2 qPend 1 _ _ (MTask.mk [PollRes.ready 5])
    rfl (by decide) (by decide) rfl rfl rfl rfl (by decide)

theorem spec_c7_witness :
    pollLoop 1 c7Start = some (Except.error 7, false,
      completeFrom (afterTaskPoll c7Qd 1 (MTask.mk [])) 1) ∧
    (completeFrom (afterTaskPoll c7Qd 1 (MTask.mk [])) 1).len = c7Qd.len - 1 ∧
    (((completeFrom (afterTaskPoll c7Qd 1 (MTask.mk [])) 1).nodes 1).bind
      Node.future) = none :=
  (spec_c7 Nat Nat c7Start c7Qd 1 c7Node (MTask.mk [PollRes.err 7])
    (MTask.mk []) 7 5 0 rfl rfl rfl
    (show (1 : Nat) ≤ MAX_REFS by decide)).1 rfl

/-- C3 counterexample: the claim says a Node is never freed while its QUEUED
bit is set.  In the code, release (lines 448-459) frees exactly when
old_state & !QUEUED == 1, ignoring the QUEUED bit: on the state word
QUEUED | 1 the releasing decrement does free the Node even though QUEUED is
set, both at the word level and on the heap (releaseRQ clears the slot). -/
theorem spec_c3_counterexample :
    qRel.nodes 1 = some qRelNode ∧
    qRelNode.state &&& QUEUED ≠ 0 ∧
    (releaseWord qRelNode.state).2 = true ∧
    (releaseRQ qRel 1).nodes 1 = none := by
  refine ⟨rfl, by decide, by decide, rfl⟩

/-- C3 amended: release frees a Node exactly when the refcount portion of the
observed state word is 1 (old_state & !QUEUED == 1), regardless of the QUEUED
bit; freeing with QUEUED still set is possible and intended (release_node
takes this path when the Node was not concurrently re-enqueued). -/
theorem spec_c3_amended (s : Nat) :
    ((releaseWord s).2 = true ↔ s &&& NOT_QUEUED = 1) ∧
    (releaseWord (QUEUED ||| 1)).2 = true := by
  constructor
  · show decide (s &&& NOT_QUEUED = 1) = true ↔ s &&& NOT_QUEUED = 1
    exact decide_eq_true_iff
  · decide

/-- C5: a dequeue from any wake-queue state reachable by interleaved producer
enqueues (split into their two atomic halves) and consumer dequeues never
returns the sentinel as Data. -/
theorem spec_c5 (q : MQ) (h : MQReach q) (n : Nat)
    (hd : (mqDequeue q).1 = DequeueR.data n) : n ≠ q.stub := by
  intro hc
  subst hc
  exact (mqDequeue_not_stub_inv q (MQReach_inv q h)).1 hd

theorem spec_c5_witness : (1 : Nat) ≠ c5State.stub :=
  spec_c5 c5State
    (MQReach.finish (mqEnqStart mq0 1) (0, 1)
      (MQReach.start mq0 1 MQReach.init (by decide)) (by decide))
    1 rfl

/-- C8: notify on a Node whose QUEUED bit is already set changes nothing at
all: the state word is unchanged (s ||| QUEUED = s), the Node is not
enqueued again, and the parent parker is not woken — the whole queue state is
identical. -/
theorem spec_c8 (α ε : Type) (q : RQ α ε) (n : Nat) (nd : Node α ε)
    (hn : q.nodes n = some nd) (hq : nd.state &&& QUEUED ≠ 0) :
    notifyRQ q n = q := by
  unfold notifyRQ
  rw [hn]
  simp only []
  rw [if_neg hq]
  unfold updNode
  have hns : (fun k => if k = n then (q.nodes k).map
      (fun x => { x with state := x.state ||| QUEUED }) else q.nodes k)
      = q.nodes := by
    funext k
    split
    · rename_i hk
      subst hk
      rw [hn, Option.map_some']
      rw [lor_QUEUED_of_queued nd.state hq]
    · rfl
  rw [hns]

theorem spec_c8_witness : notifyRQ qQueued 1 = qQueued :=
  spec_c8 Nat Nat qQueued 1
    { future := some (MTask.mk [PollRes.ready 5]), next_all := none,
      prev_all := none, next_readiness := none, state := QUEUED ||| 2 }
    rfl (by decide)

/-- C9: the claim says ref_inc aborts exactly when the refcount saturates the
half-word bound MAX_REFS, never in a normal program.  The code compares the
whole fetched state word (including the QUEUED flag bit) against MAX_REFS:
on a queued Node with refcount 1 (state word QUEUED | 1, refcount portion 1,
nowhere near saturation) ref_inc panics, while at refcount exactly MAX_REFS
with QUEUED clear it does not abort and the increment overflows the refcount
into the QUEUED bit (MAX_REFS + 1 = QUEUED). -/
theorem spec_c9 :
    refIncWord (QUEUED ||| 1) = none ∧
    (QUEUED ||| 1) &&& NOT_QUEUED = 1 ∧
    refIncWord MAX_REFS = some QUEUED ∧
    MAX_REFS &&& QUEUED = 0 ∧
    MAX_REFS + 1 = QUEUED := by decide

/-- C10: spawn_with_handle and spawn_local_with_handle wrap the future into a
(driver, handle) pair, hand only the driver to the base spawn capability, and
when that capability refuses they return its SpawnError — the handle value is
dropped, never returned; only on success is the handle handed out. -/
theorem spec_c10 {φ δ η σ : Type} (spawn spawnLocal : δ → Except σ Unit)
    (remoteHandle : φ → δ × η) (fut : φ) :
    (∀ e, spawn (remoteHandle fut).1 = Except.error e →
      spawnWithHandle spawn remoteHandle fut = Except.error e) ∧
    (∀ u, spawn (remoteHandle fut).1 = Except.ok u →
      spawnWithHandle spawn remoteHandle fut = Except.ok (remoteHandle fut).2) ∧
    (∀ e, spawnLocal (remoteHandle fut).1 = Except.error e →
      spawnLocalWithHandle spawnLocal remoteHandle fut = Except.error e) ∧
    (∀ u, spawnLocal (remoteHandle fut).1 = Except.ok u →
      spawnLocalWithHandle spawnLocal remoteHandle fut
        = Except.ok (remoteHandle fut).2) := by
  refine ⟨?_, ?_, ?_, ?_⟩ <;> intro x hx <;>
    rcases hr : remoteHandle fut with ⟨d, h⟩ <;>
    rw [hr] at hx <;>
    simp only [spawnWithHandle, spawnLocalWithHandle, hr, hx]

theorem spec_c10_witness :
    spawnWithHandle (fun _ => (Except.error 3 : Except Nat Unit))
      (fun x : Nat => (x, x + 1)) 0 = Except.error 3 ∧
    spawnLocalWithHandle (fun _ => (Except.ok () : Except Nat Unit))
      (fun x : Nat => (x, x + 1)) 0 = Except.ok 1 :=
  ⟨(spec_c10 (fun _ => (Except.error 3 : Except Nat Unit))
      (fun _ => (Except.ok () : Except Nat Unit))
      (fun x : Nat => (x, x + 1)) 0).1 3 rfl,
   (spec_c10 (fun _ => (Except.error 3 : Except Nat Unit))
      (fun _ => (Except.ok () : Except Nat Unit))
      (fun x : Nat => (x, x + 1)) 0).2.2.2 () rfl⟩
